import Mathlib

/-
Verification of the lfscache repository: a caching reverse proxy for Git LFS.

Shallow embedding of:
  * server/server.go   — signed handoff (batch rewrite / parseHeaders), serve, fetch
  * cache/cache.go     — FilesystemCache (Get / Done / DefaultFilenamer)
  * cache/concurrentreadwriter.go — ConcurrentReadWriter reader ReadAt/Read loop
  * main.go            — configuration flags, server construction

Conventions:
  * bytes are `List Nat` (each entry < 256 where it matters);
  * Go strings are Lean `String`; the byte view of a string is the list of its
    character code points (faithful for the ASCII data the protocol carries);
  * HMAC-SHA256 is abstracted as an arbitrary function from key and message to
    a tag (the source delegates to crypto/hmac); SHA-256 content hashing is
    abstracted likewise;
  * header maps (Go map[string]string and http.Header lookups) are association
    lists with first-match lookup defaulting to "", mirroring http.Header.Get;
    MIME canonicalization of header names is modelled as the identity;
  * fallible OS calls (os.Create, os.Remove, os.Rename, os.MkdirAll, Close)
    take their verdicts from explicit environment records.
-/

namespace Lfs

/-! ## Bytes and the byte view of strings -/

abbrev Bytes := List Nat

/-- Byte view of a Go string (code points; faithful on ASCII). -/
def strBytes (s : String) : Bytes := s.data.map Char.toNat

/-! ## Hex encoding and decoding (encoding/hex) -/

/-- Value of one hex digit character, as hex.DecodeString accepts them. -/
def hexDigitVal (c : Char) : Option Nat :=
  if '0' ≤ c ∧ c ≤ '9' then some (c.toNat - '0'.toNat)
  else if 'a' ≤ c ∧ c ≤ 'f' then some (c.toNat - 'a'.toNat + 10)
  else if 'A' ≤ c ∧ c ≤ 'F' then some (c.toNat - 'A'.toNat + 10)
  else none

/-- hex.DecodeString on a character list: fails on odd length or a non-hex digit. -/
def hexDecodeList : List Char → Option Bytes
  | [] => some []
  | [_] => none
  | c1 :: c2 :: rest =>
    match hexDigitVal c1, hexDigitVal c2, hexDecodeList rest with
    | some hi, some lo, some bs => some ((hi * 16 + lo) :: bs)
    | _, _, _ => none

/-- hex.DecodeString. -/
def hexDecode (s : String) : Option Bytes := hexDecodeList s.data

/-- Lowercase hex digit character for a value below 16. -/
def hexDigitChar (d : Nat) : Char :=
  if d < 10 then Char.ofNat ('0'.toNat + d) else Char.ofNat ('a'.toNat + (d - 10))

/-- hex.EncodeToString on a byte list (lowercase). -/
def hexEncodeList : Bytes → List Char
  | [] => []
  | b :: bs => hexDigitChar (b / 16) :: hexDigitChar (b % 16) :: hexEncodeList bs

/-- hex.EncodeToString. -/
def hexEncode (b : Bytes) : String := String.mk (hexEncodeList b)

/-! ## Decimal integers (strconv.Atoi / strconv.Itoa) -/

/-- Value of one decimal digit character. -/
def digitVal (c : Char) : Option Nat :=
  if '0' ≤ c ∧ c ≤ '9' then some (c.toNat - '0'.toNat) else none

/-- Accumulating decimal parse; fails on any non-digit. -/
def digitsValAux : Nat → List Char → Option Nat
  | acc, [] => some acc
  | acc, c :: cs =>
    match digitVal c with
    | some d => digitsValAux (acc * 10 + d) cs
    | none => none

/-- Decimal value of a nonempty all-digit character list. -/
def digitsVal : List Char → Option Nat
  | [] => none
  | l => digitsValAux 0 l

/-- strconv.Atoi: optional sign then a nonempty run of digits.
(The int-range overflow check is not modelled.) -/
def atoi (s : String) : Option Int :=
  match s.data with
  | [] => none
  | c :: rest =>
    if c = '+' then (digitsVal rest).map (fun n => (n : Int))
    else if c = '-' then (digitsVal rest).map (fun n => -(n : Int))
    else (digitsVal (c :: rest)).map (fun n => (n : Int))

/-- Decimal digit character of a value below 10. -/
def natDigitChar (d : Nat) : Char := Char.ofNat ('0'.toNat + d)

/-- Decimal digit characters, most significant first, with structural fuel;
the fallback branch is unreachable when fuel bounds the value. -/
def natDigitsF : Nat → Nat → List Char
  | 0, n => [natDigitChar (n % 10)]
  | fuel + 1, n =>
    if n < 10 then [natDigitChar n]
    else natDigitsF fuel (n / 10) ++ [natDigitChar (n % 10)]

/-- Decimal digit characters of a natural number, most significant first. -/
def natDigits (n : Nat) : List Char := natDigitsF n n

/-- strconv.Itoa on an int. -/
def itoa (i : Int) : String :=
  if i < 0 then String.mk ('-' :: natDigits (-i).toNat) else String.mk (natDigits i.toNat)

/-- Power of ten matching the digit count of n. -/
def tenPow (n : Nat) : Nat :=
  if h : n < 10 then 10 else tenPow (n / 10) * 10
termination_by n
decreasing_by
  have : 10 ≤ n := Nat.le_of_not_lt h
  omega

/-! ## Semicolon split and join (strings.Split / strings.Join) -/

/-- strings.Split by a single separator character. -/
def splitCharList (sep : Char) : List Char → List (List Char)
  | [] => [[]]
  | c :: rest =>
    if c = sep then [] :: splitCharList sep rest
    else
      match splitCharList sep rest with
      | [] => [[c]]
      | h :: t => (c :: h) :: t

/-- strings.Split(s, ";"). -/
def splitSemi (s : String) : List String := (splitCharList ';' s.data).map String.mk

/-- strings.Join on character lists with a one-character separator. -/
def joinCharList (sep : Char) : List (List Char) → List Char
  | [] => []
  | [x] => x
  | x :: xs => x ++ sep :: joinCharList sep xs

/-- strings.Join(l, ";"). -/
def joinSemi (l : List String) : String := String.mk (joinCharList ';' (l.map String.data))

/-! ## path.Base -/

/-- Strip trailing slashes, as path.Base does first. -/
def dropTrailingSlashes (l : List Char) : List Char :=
  (l.reverse.dropWhile (fun c => c = '/')).reverse

/-- Everything after the last slash (the whole list when there is none). -/
def afterLastSlash (l : List Char) : List Char :=
  l.foldl (fun acc c => if c = '/' then [] else acc ++ [c]) []

/-- path.Base from the Go standard library. -/
def pathBase (s : String) : String :=
  if s.data = [] then "."
  else
    let t := dropTrailingSlashes s.data
    if t = [] then "/"
    else String.mk (afterLastSlash t)

/-! ## Header maps (map[string]string and http.Header) -/

/-- Header sets as ordered association lists. Go's map[string]string is
unordered; the batch handler's name-list order is whatever map iteration
yields, modelled here by the list order. MIME canonicalization of names
(http.Header.Get/Add) is modelled as the identity. -/
abbrev Headers := List (String × String)

/-- First-match lookup in a header list. -/
def lookupH : Headers → String → Option String
  | [], _ => none
  | p :: t, k => if p.1 = k then some p.2 else lookupH t k

/-- http.Header.Get / map access: first match, or "" when absent. -/
def getHeader (h : Headers) (k : String) : String :=
  match lookupH h k with
  | some v => v
  | none => ""

/-- Go map assignment m[k] = v: replace an existing binding, else append. -/
def setHeader (h : Headers) (k v : String) : Headers :=
  if h.any (fun p => p.1 = k) then
    h.map (fun p => if p.1 = k then (k, v) else p)
  else h ++ [(k, v)]

/-! ## Signed handoff (server/server.go) -/

/-- Header name constant UpstreamHeaderList. -/
def UpstreamHeaderList : String := "X-Lfs-Cache-Header-List"

/-- Header name constant OriginalHrefHeader. -/
def OriginalHrefHeader : String := "X-Lfs-Cache-Original-Href"

/-- Header name constant SizeHeader. -/
def SizeHeader : String := "X-Lfs-Cache-Size"

/-- Header name constant SignatureHeader. -/
def SignatureHeader : String := "X-Lfs-Signature"

/-- Path constant ContentCachePathPrefix from the source (renamed; the cached
content route prefix). -/
def ContentCachePath : String := "/_lfs_cache/"

/-- An HTTP request as the content handler sees it: URL path and headers. -/
structure HttpRequest where
  path : String
  headers : Headers

/-- Abstract keyed MAC (crypto/hmac with SHA-256): key and message to tag. -/
abbrev Mac := Bytes → Bytes → Bytes

/-- The MAC message: the byte concatenation of the three header values, in
order, with no separator — exactly the three mac.Write calls of the source. -/
def macMessage (list href size : String) : Bytes :=
  strBytes list ++ strBytes href ++ strBytes size

/-- Error cases of parseHeaders. -/
inductive ParseErr
  | badHex
  | badSignature
  | badSize
deriving DecidableEq, Repr

/-- parseHeaders from server/server.go: hex-decode the signature header,
recompute the MAC over the three signed header values, compare, reconstruct
the upstream header set from the name-list header, and parse the size. -/
def parseHeaders (mac : Mac) (key : Bytes) (r : HttpRequest) :
    Except ParseErr (String × Int × Headers) :=
  match hexDecode (getHeader r.headers SignatureHeader) with
  | none => .error .badHex
  | some signature =>
    let tag := mac key (macMessage (getHeader r.headers UpstreamHeaderList)
      (getHeader r.headers OriginalHrefHeader) (getHeader r.headers SizeHeader))
    if tag = signature then
      let header : Headers :=
        ((splitSemi (getHeader r.headers UpstreamHeaderList)).filter
          (fun k => k ≠ "")).map (fun k => (k, getHeader r.headers k))
      match atoi (getHeader r.headers SizeHeader) with
      | none => .error .badSize
      | some size => .ok (getHeader r.headers OriginalHrefHeader, size, header)
    else .error .badSignature

/-- A batch download action: href plus headers. -/
structure Action where
  href : String
  header : Headers
deriving DecidableEq, Repr

/-- The download-action rewrite of the batch handler (server/server.go, batch):
collect the original header names, attach the three cache headers and the
signature, and point the href back at the proxy. -/
def rewriteAction (mac : Mac) (key : Bytes) (scheme host oid : String) (size : Int)
    (a : Action) : Action :=
  let list := joinSemi (a.header.map Prod.fst)
  let h1 := setHeader a.header UpstreamHeaderList list
  let h2 := setHeader h1 OriginalHrefHeader a.href
  let h3 := setHeader h2 SizeHeader (itoa size)
  let tag := mac key (macMessage list a.href (itoa size))
  let h4 := setHeader h3 SignatureHeader (hexEncode tag)
  { href := scheme ++ "://" ++ host ++ ContentCachePath ++ oid, header := h4 }

/-- The triple of signed header values carried by an action or a request. -/
def signedTriple (h : Headers) : String × String × String :=
  (getHeader h UpstreamHeaderList, getHeader h OriginalHrefHeader, getHeader h SizeHeader)

/-! ## FilesystemCache (cache/cache.go) -/

/-- Errors surfaced by the cache layer (and abstract I/O errors). -/
abbrev Err := String

/-- The distinguished key-not-found error value. -/
def ErrKeyNotFound : Err := "key not found"

/-- DefaultFilenamer: nest under k[0:2]/k[2:4] when the key has at least four
characters, else the key itself (filepath.Join modelled with "/"). -/
def DefaultFilenamer (key : String) : String :=
  if key.length < 4 then key
  else String.mk (key.data.take 2) ++ "/" ++ String.mk ((key.data.drop 2).take 2) ++ "/" ++ key

/-- An inflight (singleflight) registry entry: the CRW heap id, the tmp file
path (f.Name()) and the committed destination path. -/
structure SFEntry where
  crwId : Nat
  tmpName : String
  dest : String
deriving DecidableEq, Repr

/-- Cache state: the directory, the files on disk (path to contents), the
directories created so far, the inflight registry, the heap of closed CRW ids
and the next fresh CRW id. -/
structure CacheState where
  directory : String
  files : List (String × Bytes)
  dirs : List String
  singleflight : List (String × SFEntry)
  closedIds : List Nat
  nextId : Nat
deriving DecidableEq, Repr

/-- Whether the CRW with the given heap id is closed. -/
def crwIsClosed (st : CacheState) (id : Nat) : Bool := st.closedIds.contains id

/-- What cache.Get hands back as the reader. -/
inductive Rdr
  | file (path : String) (content : Bytes)
  | crw (id : Nat)
  | nil
deriving DecidableEq, Repr

/-- ConcurrentReadWriter.Reader: the nil sentinel when the CRW is closed,
otherwise a new reader on the CRW. -/
def crwReader (st : CacheState) (id : Nat) : Rdr :=
  if crwIsClosed st id then Rdr.nil else Rdr.crw id

/-- Source discriminant of cache.Get. -/
inductive Source
  | disk
  | inflight
  | fresh
deriving DecidableEq, Repr

/-- File lookup (os.Open: success iff present). -/
def fsLookup (fs : List (String × Bytes)) (p : String) : Option Bytes :=
  match fs with
  | [] => none
  | q :: t => if q.1 = p then some q.2 else fsLookup t p

/-- Create or truncate a file (os.Create on success). -/
def fsCreate (fs : List (String × Bytes)) (p : String) : List (String × Bytes) :=
  (p, []) :: fs.filter (fun q => q.1 ≠ p)

/-- Delete a file (os.Remove on success). -/
def fsErase (fs : List (String × Bytes)) (p : String) : List (String × Bytes) :=
  fs.filter (fun q => q.1 ≠ p)

/-- Rename src to dst (os.Rename on success): dst gets src's contents, src
disappears. -/
def fsRename (fs : List (String × Bytes)) (src dst : String) : List (String × Bytes) :=
  match fsLookup fs src with
  | none => fs
  | some c => (dst, c) :: (fs.filter (fun q => q.1 ≠ src ∧ q.1 ≠ dst))

/-- Registry lookup. -/
def lookupSF : List (String × SFEntry) → String → Option SFEntry
  | [], _ => none
  | p :: t, k => if p.1 = k then some p.2 else lookupSF t k

/-- Registry removal (delete(fc.singleflight, key)). -/
def removeSF (sf : List (String × SFEntry)) (k : String) : List (String × SFEntry) :=
  sf.filter (fun p => p.1 ≠ k)

/-- Committed object path: filepath.Join(directory, "objects", Filenamer(key)). -/
def objectsPath (st : CacheState) (key : String) : String :=
  st.directory ++ "/objects/" ++ DefaultFilenamer key

/-- In-progress file path: filepath.Join(directory, "tmp", key). -/
def tmpPath (st : CacheState) (key : String) : String :=
  st.directory ++ "/tmp/" ++ key

/-- Directory part of a path (filepath.Dir: everything before the final path
element, trailing slashes removed). -/
def parentDir (p : String) : String :=
  String.mk (dropTrailingSlashes (p.data.take (p.data.length - (afterLastSlash p.data).length)))

/-- FilesystemCache.Get. `createErr` is the environment's verdict for the
os.Create call. Returns ((reader, writer, source, error), new state). -/
def cacheGet (createErr : Option Err) (st : CacheState) (key : String) :
    (Rdr × Option Nat × Source × Option Err) × CacheState :=
  let filename := objectsPath st key
  match fsLookup st.files filename with
  | some content => ((Rdr.file filename content, none, Source.disk, none), st)
  | none =>
    match lookupSF st.singleflight key with
    | some entry => ((crwReader st entry.crwId, none, Source.inflight, none), st)
    | none =>
      match createErr with
      | some e => ((Rdr.nil, none, Source.fresh, some e), st)
      | none =>
        let tname := tmpPath st key
        let id := st.nextId
        let entry : SFEntry := { crwId := id, tmpName := tname, dest := filename }
        let st' : CacheState :=
          { st with
            files := fsCreate st.files tname
            singleflight := st.singleflight ++ [(key, entry)]
            nextId := id + 1 }
        ((crwReader st' id, some id, Source.fresh, none), st')

/-- Environment verdicts for the fallible calls inside Done. -/
structure DoneEnv where
  closeErr : Option Err
  mkdirErr : Option Err
  renameErr : Option Err
  removeErr : Option Err
deriving DecidableEq, Repr

/-- The all-successful Done environment. -/
def okEnv : DoneEnv := ⟨none, none, none, none⟩

/-- FilesystemCache.Done: remove the entry, close the CRW, then unlink the tmp
file on error or mkdir-and-rename it into objects/ on success. -/
def cacheDone (env : DoneEnv) (st : CacheState) (key : String) (terminal : Option Err) :
    Option Err × CacheState :=
  match lookupSF st.singleflight key with
  | none => (some ErrKeyNotFound, st)
  | some entry =>
    let st1 : CacheState :=
      { st with
        singleflight := removeSF st.singleflight key
        closedIds := entry.crwId :: st.closedIds }
    match env.closeErr with
    | some ce => (some ce, st1)
    | none =>
      match terminal with
      | some _ =>
        match env.removeErr with
        | some re => (some re, st1)
        | none => (none, { st1 with files := fsErase st1.files entry.tmpName })
      | none =>
        match env.mkdirErr with
        | some me => (some me, st1)
        | none =>
          match env.renameErr with
          | some re => (some re, st1)
          | none =>
            (none,
              { st1 with
                dirs := parentDir entry.dest :: st1.dirs
                files := fsRename st1.files entry.tmpName entry.dest })

/-- NewFilesystemCache over a directory, with any pre-existing committed
objects on disk (the cache directory may be preloaded). -/
def initCache (directory : String) (files : List (String × Bytes)) : CacheState :=
  { directory := directory
    files := files
    dirs := [directory ++ "/objects", directory ++ "/tmp"]
    singleflight := []
    closedIds := []
    nextId := 0 }

/-- Cache states reachable through Get and Done from a fresh cache. -/
inductive Reachable : CacheState → Prop
  | init (directory : String) (files : List (String × Bytes)) :
      Reachable (initCache directory files)
  | get (createErr : Option Err) (key : String) {st : CacheState} :
      Reachable st → Reachable (cacheGet createErr st key).2
  | done (env : DoneEnv) (key : String) (terminal : Option Err) {st : CacheState} :
      Reachable st → Reachable (cacheDone env st key terminal).2

/-! ## Serve handler (server/server.go, serve) -/

/-- Outcome of the content-GET handler: 400 on parse failure, 500 on cache
failure, else the served object with its source, whether a fetch producer was
spawned (a writer came back), and the parsed upstream url and size. -/
inductive ServeOut
  | badRequest
  | internalError (oid : String)
  | served (oid : String) (source : Source) (fetchSpawned : Bool) (url : String) (size : Int)
deriving DecidableEq, Repr

/-- The object id the serve handler extracted, when it got that far. -/
def ServeOut.oid? : ServeOut → Option String
  | .badRequest => none
  | .internalError oid => some oid
  | .served oid _ _ _ _ => some oid

/-- The serve handler: verify and parse the signed headers (400 on failure,
cache untouched), extract the oid from the final path segment, call cache.Get
(500 on failure), spawn fetch when a writer came back, serve the reader. -/
def serve (mac : Mac) (key : Bytes) (createErr : Option Err) (st : CacheState)
    (r : HttpRequest) : ServeOut × CacheState :=
  match parseHeaders mac key r with
  | .error _ => (ServeOut.badRequest, st)
  | .ok (url, size, _header) =>
    let oid := pathBase r.path
    let res := cacheGet createErr st oid
    match res.1.2.2.2 with
    | some _ => (ServeOut.internalError oid, res.2)
    | none => (ServeOut.served oid res.1.2.2.1 res.1.2.1.isSome url size, res.2)

/-! ## Fetch producer (server/server.go, fetch) -/

/-- Abstract content hash (lowercase hex of SHA-256 of a byte stream). -/
abbrev HashHex := Bytes → String

/-- Environment of one fetch execution: verdicts of http.NewRequest and
client.Do, the upstream status, the body bytes streamed before the copy ended,
and the copy verdict (a read or write error during io.Copy). -/
structure FetchEnv where
  buildErr : Option Err
  doErr : Option Err
  status : Nat
  body : Bytes
  copyErr : Option Err
deriving DecidableEq, Repr

/-- The terminal error of a fetch execution, following the source's control
flow: request build failure, request issue failure, non-200 status, copy
failure, then the checksum comparison against the object key. -/
def fetchTerminal (hash : HashHex) (env : FetchEnv) (oid : String) : Option Err :=
  match env.buildErr with
  | some e => some e
  | none =>
    match env.doErr with
    | some e => some e
    | none =>
      if env.status ≠ 200 then some "upstream status"
      else
        match env.copyErr with
        | some e => some e
        | none => if oid ≠ hash env.body then some "file checksum mismatch" else none

/-- One fetch execution: the returned error together with the trace of
cache.Done calls the deferred block performs (key and error of each call). -/
def fetch (hash : HashHex) (env : FetchEnv) (oid : String) :
    Option Err × List (String × Option Err) :=
  let terminal := fetchTerminal hash env oid
  (terminal, [(oid, terminal)])

/-! ## ConcurrentReadWriter reader (cache/concurrentreadwriter.go) -/

/-- Outcome of one reader.ReadAt call against a momentarily unchanging CRW:
either it returns (count, end-of-stream flag), or it parks on the wake
condition having accumulated `n` bytes. -/
inductive ReadOut
  | ret (n : Nat) (eof : Bool)
  | waits (n : Nat)
deriving DecidableEq, Repr

/-- The reader.ReadAt loop. `fileLen` is the current length of the underlying
file, `crwClosed` and `readerClosed` the two closed flags, `off` the requested
offset, `n` the bytes accumulated so far, `rem` the remainder of the caller's
buffer. A positional read yields min(rem, fileLen − (off+n)) bytes and reports
end-of-file exactly when that is short of rem. -/
def readAtLoop (fileLen : Nat) (crwClosed readerClosed : Bool) (off n rem : Nat) : ReadOut :=
  if readerClosed then ReadOut.ret 0 true
  else
    let avail := fileLen - (off + n)
    let read := min rem avail
    if hfull : read = rem then
      if hz : rem = 0 then ReadOut.ret n false
      else readAtLoop fileLen crwClosed readerClosed off (n + read) (rem - read)
    else
      if crwClosed then ReadOut.ret (n + read) true
      else ReadOut.waits (n + read)
termination_by rem
decreasing_by
  omega

/-- reader.ReadAt. -/
def crwReadAt (fileLen : Nat) (crwClosed readerClosed : Bool) (bufLen off : Nat) : ReadOut :=
  readAtLoop fileLen crwClosed readerClosed off 0 bufLen

/-- reader.Read: ReadAt at the reader's current offset, which then advances by
the count returned. -/
def crwRead (fileLen : Nat) (crwClosed readerClosed : Bool) (offset bufLen : Nat) :
    ReadOut × Nat :=
  match crwReadAt fileLen crwClosed readerClosed bufLen offset with
  | ReadOut.ret n e => (ReadOut.ret n e, offset + n)
  | ReadOut.waits n => (ReadOut.waits n, offset)

/-! ## Configuration (main.go and newServer) -/

/-- The command-line flag names main.go registers. -/
def mainFlagNames : List String :=
  ["http-addr", "https-addr", "tls-key", "tls-cert", "url", "directory", "v"]

/-- The configuration newServer receives. -/
structure ServerConfig where
  upstream : String
  directory : String
  cacheEnabled : Bool
deriving DecidableEq, Repr

/-- The HMAC key newServer installs: 64 bytes drawn from the process's random
source (rand.Read into the 64-byte array), whatever the configuration. -/
def newServerHmacKey (randByte : Nat → Nat) (_cfg : ServerConfig) : Bytes :=
  (List.range 64).map randByte

/-- The state cacheGet builds in its fresh branch: tmp file created, registry
entry appended, next CRW id advanced. -/
def freshState (st : CacheState) (key : String) : CacheState :=
  { st with
    files := fsCreate st.files (tmpPath st key)
    singleflight := st.singleflight ++
      [(key, { crwId := st.nextId, tmpName := tmpPath st key, dest := objectsPath st key })]
    nextId := st.nextId + 1 }

/-- The cache invariant: every inflight CRW is un-closed, inflight CRW ids are
below the allocation bound and pairwise distinct, and closed ids are below the
allocation bound. -/
def CacheInv (st : CacheState) : Prop :=
  (∀ p ∈ st.singleflight, p.2.crwId ∉ st.closedIds ∧ p.2.crwId < st.nextId) ∧
  st.singleflight.Pairwise (fun a b => a.2.crwId ≠ b.2.crwId) ∧
  (∀ i ∈ st.closedIds, i < st.nextId)

/-- The state cacheDone reaches right after removing the entry and closing its
CRW. -/
def doneState1 (st : CacheState) (key : String) (e : SFEntry) : CacheState :=
  { st with
    singleflight := removeSF st.singleflight key
    closedIds := e.crwId :: st.closedIds }

/-- A concrete MAC for counterexamples and witnesses: the tag is the message
itself. Every MAC exhibits the collision below, because the two header triples
concatenate to identical bytes. -/
def exId : Mac := fun _ m => m

/-- The forged header set of the signature-ambiguity counterexample: the
signed values ("U", "1", "23") presented with the signature the batch rewrite
produced for the triple ("", "U", "123"). -/
def forgedHeaders : Headers :=
  [(UpstreamHeaderList, "U"), (OriginalHrefHeader, "1"), (SizeHeader, "23"),
   (SignatureHeader,
     getHeader (rewriteAction exId [] "http" "h" "o" 123 ⟨"U", []⟩).header SignatureHeader)]

/-! ## Theorems -/

theorem hexDigitVal_hexDigitChar : ∀ d < 16, hexDigitVal (hexDigitChar d) = some d := by
  decide

theorem hexDecodeList_hexEncodeList (b : Bytes) (hb : ∀ x ∈ b, x < 256) :
    hexDecodeList (hexEncodeList b) = some b := by
  induction b with
  | nil => rfl
  | cons x xs ih =>
    have hx : x < 256 := hb x (List.mem_cons_self x xs)
    have hxs : ∀ y ∈ xs, y < 256 := fun y hy => hb y (List.mem_cons_of_mem x hy)
    have h1 : hexDigitVal (hexDigitChar (x / 16)) = some (x / 16) :=
      hexDigitVal_hexDigitChar (x / 16) (by omega)
    have h2 : hexDigitVal (hexDigitChar (x % 16)) = some (x % 16) :=
      hexDigitVal_hexDigitChar (x % 16) (by omega)
    have hx16 : x / 16 * 16 + x % 16 = x := by omega
    simp only [hexEncodeList, hexDecodeList, h1, h2, ih hxs, hx16]

theorem hexDecode_hexEncode (b : Bytes) (hb : ∀ x ∈ b, x < 256) :
    hexDecode (hexEncode b) = some b :=
  hexDecodeList_hexEncodeList b hb

theorem digitVal_natDigitChar : ∀ d < 10, digitVal (natDigitChar d) = some d := by
  decide

theorem digitsValAux_append (acc : Nat) (xs ys : List Char) :
    digitsValAux acc (xs ++ ys) =
      match digitsValAux acc xs with
      | some a => digitsValAux a ys
      | none => none := by
  induction xs generalizing acc with
  | nil => rfl
  | cons c cs ih =>
    simp only [List.cons_append, digitsValAux]
    cases digitVal c with
    | none => rfl
    | some d => exact ih (acc * 10 + d)

theorem digitsValAux_natDigitsF (fuel : Nat) :
    ∀ n acc, n ≤ fuel → digitsValAux acc (natDigitsF fuel n) = some (acc * tenPow n + n) := by
  induction fuel with
  | zero =>
    intro n acc hn
    have hn0 : n = 0 := Nat.le_zero.mp hn
    subst hn0
    rw [natDigitsF, tenPow, dif_pos (by omega)]
    simp only [digitsValAux, digitVal_natDigitChar 0 (by omega)]
  | succ fuel ih =>
    intro n acc hn
    by_cases h : n < 10
    · rw [natDigitsF, if_pos h, tenPow, dif_pos h]
      simp only [digitsValAux, digitVal_natDigitChar n h]
    · rw [natDigitsF, if_neg h, tenPow, dif_neg h]
      have hdiv : n / 10 ≤ fuel := by omega
      rw [digitsValAux_append, ih (n / 10) acc hdiv]
      simp only [digitsValAux, digitVal_natDigitChar (n % 10) (by omega)]
      congr 1
      have := Nat.div_add_mod n 10
      ring_nf
      omega

theorem digitsVal_natDigits (n : Nat) : digitsVal (natDigits n) = some n := by
  have h := digitsValAux_natDigitsF n n 0 (Nat.le_refl n)
  rw [natDigits]
  cases hd : natDigitsF n n with
  | nil =>
    rw [hd] at h
    simp [digitsValAux] at h
    subst h
    simp [natDigitsF] at hd
  | cons c cs =>
    rw [hd] at h
    simpa [digitsVal] using h

theorem natDigitsF_head (fuel : Nat) :
    ∀ n, ∃ d rest, d < 10 ∧ natDigitsF fuel n = natDigitChar d :: rest := by
  induction fuel with
  | zero => exact fun n => ⟨n % 10, [], by omega, rfl⟩
  | succ fuel ih =>
    intro n
    by_cases h : n < 10
    · exact ⟨n, [], h, by rw [natDigitsF, if_pos h]⟩
    · obtain ⟨d, rest, hd, heq⟩ := ih (n / 10)
      refine ⟨d, rest ++ [natDigitChar (n % 10)], hd, ?_⟩
      rw [natDigitsF, if_neg h, heq]
      rfl

theorem natDigits_head (n : Nat) :
    ∃ d rest, d < 10 ∧ natDigits n = natDigitChar d :: rest :=
  natDigitsF_head n n

theorem natDigitChar_ne_sign : ∀ d < 10, natDigitChar d ≠ '+' ∧ natDigitChar d ≠ '-' := by
  decide

theorem atoi_itoa (i : Int) : atoi (itoa i) = some i := by
  by_cases h : i < 0
  · have hdata : (itoa i).data = '-' :: natDigits (-i).toNat := by
      rw [itoa, if_pos h]
    have h0 : ((-i).toNat : Int) = -i := Int.toNat_of_nonneg (by omega)
    simp [atoi, hdata, digitsVal_natDigits, h0]
  · have h0 : (0 : Int) ≤ i := by omega
    have hdata : (itoa i).data = natDigits i.toNat := by rw [itoa, if_neg h]
    obtain ⟨d, rest, hd, heq⟩ := natDigits_head i.toNat
    obtain ⟨hplus, hminus⟩ := natDigitChar_ne_sign d hd
    have hval : atoi (itoa i) = (digitsVal (natDigits i.toNat)).map (fun n => (n : Int)) := by
      simp only [atoi, hdata, heq, if_neg hplus, if_neg hminus]
    rw [hval, digitsVal_natDigits]
    simp [Int.toNat_of_nonneg h0]

theorem splitCharList_ne_nil (sep : Char) (l : List Char) : splitCharList sep l ≠ [] := by
  cases l with
  | nil => simp [splitCharList]
  | cons c rest =>
    simp only [splitCharList]
    by_cases h : c = sep
    · simp [h]
    · simp only [if_neg h]
      cases splitCharList sep rest <;> simp

theorem splitCharList_append (sep : Char) (x l : List Char) (hx : sep ∉ x) :
    splitCharList sep (x ++ l) =
      match splitCharList sep l with
      | [] => [x]
      | h :: t => (x ++ h) :: t := by
  induction x with
  | nil =>
    simp only [List.nil_append]
    cases h : splitCharList sep l with
    | nil => exact absurd h (splitCharList_ne_nil sep l)
    | cons a t => simp
  | cons c cs ih =>
    have hc : c ≠ sep := fun h => hx (h ▸ List.mem_cons_self c cs)
    have hcs : sep ∉ cs := fun h => hx (List.mem_cons_of_mem c h)
    simp only [List.cons_append, splitCharList, if_neg hc, List.append_eq]
    rw [ih hcs]
    cases h : splitCharList sep l with
    | nil => exact absurd h (splitCharList_ne_nil sep l)
    | cons a t => simp [h]

theorem splitCharList_joinCharList (sep : Char) (l : List (List Char)) (hne : l ≠ [])
    (hl : ∀ x ∈ l, sep ∉ x) :
    splitCharList sep (joinCharList sep l) = l := by
  induction l with
  | nil => exact absurd rfl hne
  | cons x xs ih =>
    cases xs with
    | nil =>
      simp only [joinCharList]
      have hx : sep ∉ x := hl x (List.mem_cons_self x [])
      have := splitCharList_append sep x [] hx
      simpa [splitCharList] using this
    | cons y ys =>
      have hx : sep ∉ x := hl x (List.mem_cons_self x (y :: ys))
      have hxs : ∀ z ∈ y :: ys, sep ∉ z := fun z hz => hl z (List.mem_cons_of_mem x hz)
      have hjoin : joinCharList sep (x :: y :: ys) = x ++ sep :: joinCharList sep (y :: ys) := rfl
      rw [hjoin, splitCharList_append sep x _ hx]
      have hsplit : splitCharList sep (sep :: joinCharList sep (y :: ys)) =
          [] :: splitCharList sep (joinCharList sep (y :: ys)) := by
        simp [splitCharList]
      rw [hsplit, ih (by simp) hxs]
      simp

theorem lookupH_append (h1 h2 : Headers) (k : String) :
    lookupH (h1 ++ h2) k =
      match lookupH h1 k with
      | some v => some v
      | none => lookupH h2 k := by
  induction h1 with
  | nil => rfl
  | cons p t ih =>
    simp only [List.cons_append, lookupH]
    by_cases hp : p.1 = k
    · simp [hp]
    · simp only [if_neg hp]
      exact ih

theorem lookupH_setHeader_self (h : Headers) (k v : String) :
    lookupH (setHeader h k v) k = some v := by
  rw [setHeader]
  by_cases hmem : h.any (fun p => p.1 = k)
  · rw [if_pos hmem]
    induction h with
    | nil => simp at hmem
    | cons p t ih =>
      by_cases hp : p.1 = k
      · simp [lookupH, hp]
      · have ht : t.any (fun q => q.1 = k) := by
          simp only [List.any_cons] at hmem
          rcases Bool.or_eq_true_iff.mp hmem with h1 | h2
          · exact absurd (by simpa using h1) hp
          · exact h2
        simp only [List.map_cons, if_neg hp, lookupH]
        exact ih ht
  · rw [if_neg hmem, lookupH_append]
    have hnone : lookupH h k = none := by
      induction h with
      | nil => rfl
      | cons p t ih =>
        have hp : ¬p.1 = k := by
          intro hpk
          exact hmem (by simp [List.any_cons, hpk])
        have ht : ¬t.any (fun q => q.1 = k) = true := by
          intro hta
          exact hmem (by simp [List.any_cons, hta])
        simp only [lookupH, if_neg hp]
        exact ih (by simpa using ht)
    rw [hnone]
    simp [lookupH]

theorem getHeader_setHeader_self (h : Headers) (k v : String) :
    getHeader (setHeader h k v) k = v := by
  rw [getHeader, lookupH_setHeader_self]

theorem lookupH_setHeader_other (h : Headers) (k v k' : String) (hne : k' ≠ k) :
    lookupH (setHeader h k v) k' = lookupH h k' := by
  rw [setHeader]
  by_cases hmem : h.any (fun p => p.1 = k)
  · rw [if_pos hmem]
    clear hmem
    induction h with
    | nil => rfl
    | cons p t ih =>
      by_cases hp : p.1 = k
      · simp only [List.map_cons, if_pos hp, lookupH]
        rw [if_neg (fun hh => hne hh.symm), if_neg (fun hh => hne (hp ▸ hh).symm)]
        exact ih
      · simp only [List.map_cons, if_neg hp, lookupH]
        by_cases hpk' : p.1 = k'
        · simp [hpk']
        · rw [if_neg hpk', if_neg hpk']
          exact ih
  · rw [if_neg hmem, lookupH_append]
    cases hl : lookupH h k' with
    | some v' => rfl
    | none => simp [lookupH, if_neg (fun hh : k = k' => hne hh.symm)]

theorem getHeader_setHeader_other (h : Headers) (k v k' : String) (hne : k' ≠ k) :
    getHeader (setHeader h k v) k' = getHeader h k' := by
  rw [getHeader, getHeader, lookupH_setHeader_other h k v k' hne]

theorem fsLookup_filter_keep (fs : List (String × Bytes)) (f : String × Bytes → Bool)
    (q : String) (hf : ∀ c, f (q, c) = true) :
    fsLookup (fs.filter f) q = fsLookup fs q := by
  induction fs with
  | nil => rfl
  | cons x t ih =>
    by_cases hx : x.1 = q
    · have hxq : x = (q, x.2) := by
        cases x
        simp_all
      have hfx : f x = true := by
        rw [hxq]
        exact hf x.2
      rw [List.filter_cons_of_pos hfx, fsLookup, fsLookup, if_pos hx, if_pos hx]
    · by_cases hfx : f x
      · rw [List.filter_cons_of_pos hfx, fsLookup, fsLookup, if_neg hx, if_neg hx]
        exact ih
      · rw [List.filter_cons_of_neg (by simpa using hfx), fsLookup, if_neg hx]
        exact ih

theorem fsLookup_filter_drop (fs : List (String × Bytes)) (f : String × Bytes → Bool)
    (q : String) (hf : ∀ c, f (q, c) = false) :
    fsLookup (fs.filter f) q = none := by
  induction fs with
  | nil => rfl
  | cons x t ih =>
    by_cases hfx : f x
    · have hx : x.1 ≠ q := by
        intro hq
        have hxq : x = (q, x.2) := by
          cases x
          simp_all
        rw [hxq, hf x.2] at hfx
        exact Bool.false_ne_true (by simpa using hfx)
      rw [List.filter_cons_of_pos hfx, fsLookup, if_neg hx]
      exact ih
    · rw [List.filter_cons_of_neg (by simpa using hfx)]
      exact ih

theorem fsLookup_fsErase_self (fs : List (String × Bytes)) (p : String) :
    fsLookup (fsErase fs p) p = none := by
  rw [fsErase]
  exact fsLookup_filter_drop fs _ p (fun c => by simp)

theorem fsLookup_fsErase_other (fs : List (String × Bytes)) (p q : String) (h : q ≠ p) :
    fsLookup (fsErase fs p) q = fsLookup fs q := by
  rw [fsErase]
  exact fsLookup_filter_keep fs _ q (fun c => by simp [h])

theorem fsLookup_fsRename_dest (fs : List (String × Bytes)) (src dst : String) (c : Bytes)
    (h : fsLookup fs src = some c) :
    fsLookup (fsRename fs src dst) dst = some c := by
  rw [fsRename, h, fsLookup, if_pos rfl]

theorem fsLookup_fsRename_src (fs : List (String × Bytes)) (src dst : String) (c : Bytes)
    (h : fsLookup fs src = some c) (hne : src ≠ dst) :
    fsLookup (fsRename fs src dst) src = none := by
  rw [fsRename, h, fsLookup, if_neg (fun he => hne he.symm)]
  exact fsLookup_filter_drop fs _ src (fun b => by simp)

theorem fsLookup_fsCreate_self (fs : List (String × Bytes)) (p : String) :
    fsLookup (fsCreate fs p) p = some [] := by
  rw [fsCreate, fsLookup, if_pos rfl]

theorem fsLookup_fsCreate_other (fs : List (String × Bytes)) (p q : String) (h : q ≠ p) :
    fsLookup (fsCreate fs p) q = fsLookup fs q := by
  rw [fsCreate, fsLookup, if_neg (fun he => h he.symm)]
  exact fsLookup_filter_keep fs _ q (fun c => by simp [h])

theorem lookupSF_removeSF_self (sf : List (String × SFEntry)) (k : String) :
    lookupSF (removeSF sf k) k = none := by
  rw [removeSF]
  induction sf with
  | nil => rfl
  | cons p t ih =>
    by_cases hp : p.1 = k
    · rw [List.filter_cons_of_neg (by simpa using hp)]
      exact ih
    · rw [List.filter_cons_of_pos (by simpa using hp), lookupSF, if_neg hp]
      exact ih

theorem lookupSF_mem (sf : List (String × SFEntry)) (k : String) (e : SFEntry)
    (h : lookupSF sf k = some e) : (k, e) ∈ sf := by
  induction sf with
  | nil => exact absurd h (by simp [lookupSF])
  | cons p t ih =>
    rw [lookupSF] at h
    by_cases hp : p.1 = k
    · rw [if_pos hp] at h
      have : p = (k, e) := by
        cases p
        simp_all
      rw [← this]
      exact List.mem_cons_self p t
    · rw [if_neg hp] at h
      exact List.mem_cons_of_mem p (ih h)

theorem lookupSF_append_mem (sf : List (String × SFEntry)) (k : String) (e : SFEntry)
    (h : lookupSF sf k = none) :
    lookupSF (sf ++ [(k, e)]) k = some e := by
  induction sf with
  | nil => simp [lookupSF]
  | cons p t ih =>
    rw [lookupSF] at h
    by_cases hp : p.1 = k
    · rw [if_pos hp] at h
      exact absurd h (by simp)
    · rw [if_neg hp] at h
      rw [List.cons_append, lookupSF, if_neg hp]
      exact ih h

/-! ### Case lemmas for cacheGet and cacheDone -/

theorem cacheGet_disk (ce : Option Err) (st : CacheState) (key : String) (content : Bytes)
    (h : fsLookup st.files (objectsPath st key) = some content) :
    cacheGet ce st key = ((Rdr.file (objectsPath st key) content, none, Source.disk, none), st) := by
  simp [cacheGet, h]

theorem cacheGet_inflight (ce : Option Err) (st : CacheState) (key : String) (e : SFEntry)
    (hd : fsLookup st.files (objectsPath st key) = none)
    (he : lookupSF st.singleflight key = some e) :
    cacheGet ce st key = ((crwReader st e.crwId, none, Source.inflight, none), st) := by
  simp [cacheGet, hd, he]

theorem cacheGet_createFail (er : Err) (st : CacheState) (key : String)
    (hd : fsLookup st.files (objectsPath st key) = none)
    (he : lookupSF st.singleflight key = none) :
    cacheGet (some er) st key = ((Rdr.nil, none, Source.fresh, some er), st) := by
  simp [cacheGet, hd, he]

theorem cacheGet_fresh (st : CacheState) (key : String)
    (hd : fsLookup st.files (objectsPath st key) = none)
    (he : lookupSF st.singleflight key = none) :
    cacheGet none st key =
      ((crwReader (freshState st key) st.nextId, some st.nextId, Source.fresh, none),
        freshState st key) := by
  simp [cacheGet, hd, he, freshState]

theorem cacheDone_noEntry (env : DoneEnv) (st : CacheState) (key : String) (t : Option Err)
    (he : lookupSF st.singleflight key = none) :
    cacheDone env st key t = (some ErrKeyNotFound, st) := by
  simp [cacheDone, he]

theorem cacheDone_closeErr (env : DoneEnv) (st : CacheState) (key : String) (t : Option Err)
    (e : SFEntry) (he : lookupSF st.singleflight key = some e)
    (ce : Err) (hce : env.closeErr = some ce) :
    cacheDone env st key t = (some ce, doneState1 st key e) := by
  simp [cacheDone, he, hce, doneState1]

theorem cacheDone_error (env : DoneEnv) (st : CacheState) (key : String) (er : Err)
    (e : SFEntry) (he : lookupSF st.singleflight key = some e)
    (hce : env.closeErr = none) (hre : env.removeErr = none) :
    cacheDone env st key (some er) =
      (none, { doneState1 st key e with
        files := fsErase (doneState1 st key e).files e.tmpName }) := by
  simp [cacheDone, he, hce, hre, doneState1]

theorem cacheDone_success (env : DoneEnv) (st : CacheState) (key : String)
    (e : SFEntry) (he : lookupSF st.singleflight key = some e)
    (hce : env.closeErr = none) (hme : env.mkdirErr = none) (hre : env.renameErr = none) :
    cacheDone env st key none =
      (none, { doneState1 st key e with
        dirs := parentDir e.dest :: (doneState1 st key e).dirs
        files := fsRename (doneState1 st key e).files e.tmpName e.dest }) := by
  simp [cacheDone, he, hce, hme, hre, doneState1]

/-! ### The reader loop in closed form -/

theorem readAtLoop_eq (L : Nat) (c r : Bool) (off n rem : Nat) :
    readAtLoop L c r off n rem =
      if r then ReadOut.ret 0 true
      else if rem ≤ L - (off + n) then ReadOut.ret (n + rem) false
      else if c then ReadOut.ret (n + (L - (off + n))) true
      else ReadOut.waits (n + (L - (off + n))) := by
  by_cases hr : r
  · rw [readAtLoop]
    simp [hr]
  · by_cases hle : rem ≤ L - (off + n)
    · have hmin : min rem (L - (off + n)) = rem := Nat.min_eq_left hle
      by_cases hz : rem = 0
      · rw [readAtLoop]
        subst hz
        simp [hr, hle]
      · rw [readAtLoop]
        simp only [hr, Bool.false_eq_true, if_false, hmin, dif_pos, hz, Nat.sub_self]
        rw [readAtLoop]
        have hmin0 : min 0 (L - (off + (n + rem))) = 0 := Nat.min_eq_left (Nat.zero_le _)
        simp [hr, hmin0, hle]
    · have hlt : L - (off + n) < rem := Nat.lt_of_not_le hle
      have hmin : min rem (L - (off + n)) = L - (off + n) :=
        Nat.min_eq_right (Nat.le_of_lt hlt)
      have hne : ¬ min rem (L - (off + n)) = rem := by omega
      rw [readAtLoop]
      simp only [hr, Bool.false_eq_true, if_false, hmin]
      rw [dif_neg (by omega)]
      by_cases hc : c <;> simp [hc, hle, hmin]

/-! ### Cache invariant preservation -/

theorem cacheInv_init (directory : String) (files : List (String × Bytes)) :
    CacheInv (initCache directory files) := by
  refine ⟨?_, ?_, ?_⟩ <;> simp [initCache]

theorem cacheInv_get (ce : Option Err) (key : String) (st : CacheState)
    (hinv : CacheInv st) : CacheInv (cacheGet ce st key).2 := by
  obtain ⟨h1, h2, h3⟩ := hinv
  cases hd : fsLookup st.files (objectsPath st key) with
  | some content =>
    rw [cacheGet_disk ce st key content hd]
    exact ⟨h1, h2, h3⟩
  | none =>
    cases he : lookupSF st.singleflight key with
    | some e =>
      rw [cacheGet_inflight ce st key e hd he]
      exact ⟨h1, h2, h3⟩
    | none =>
      cases ce with
      | some er =>
        rw [cacheGet_createFail er st key hd he]
        exact ⟨h1, h2, h3⟩
      | none =>
        rw [cacheGet_fresh st key hd he]
        dsimp only
        refine ⟨?_, ?_, ?_⟩
        · intro p hp
          simp only [freshState, List.mem_append, List.mem_singleton] at hp
          rcases hp with hold | hnew
          · obtain ⟨hc, hn⟩ := h1 p hold
            refine ⟨by simpa [freshState] using hc, ?_⟩
            simp only [freshState]
            omega
          · subst hnew
            refine ⟨?_, by simp [freshState]⟩
            simp only [freshState]
            intro hmem
            exact absurd (h3 _ hmem) (by omega)
        · simp only [freshState]
          rw [List.pairwise_append]
          refine ⟨h2, by simp, ?_⟩
          intro a ha b hb
          have hb' : b = (key, ⟨st.nextId, tmpPath st key, objectsPath st key⟩) := by
            simpa using hb
          subst hb'
          have halt := (h1 a ha).2
          simpa using Nat.ne_of_lt halt
        · intro i hi
          simp only [freshState] at hi ⊢
          exact Nat.lt_succ_of_lt (h3 i hi)

theorem cacheInv_done (env : DoneEnv) (key : String) (t : Option Err) (st : CacheState)
    (hinv : CacheInv st) : CacheInv (cacheDone env st key t).2 := by
  obtain ⟨h1, h2, h3⟩ := hinv
  cases he : lookupSF st.singleflight key with
  | none =>
    rw [cacheDone_noEntry env st key t he]
    exact ⟨h1, h2, h3⟩
  | some e =>
    have hmem : (key, e) ∈ st.singleflight := lookupSF_mem _ _ _ he
    have hinv1 : CacheInv (doneState1 st key e) := by
      refine ⟨?_, ?_, ?_⟩
      · intro p hp
        have hpmem : p ∈ st.singleflight := List.mem_of_mem_filter hp
        have hpkey : p.1 ≠ key := by
          have := List.of_mem_filter hp
          simpa using this
        obtain ⟨hc, hn⟩ := h1 p hpmem
        have hpne : p ≠ (key, e) := by
          intro hpe
          rw [hpe] at hpkey
          exact hpkey rfl
        have hidne : p.2.crwId ≠ e.crwId := by
          have hsym : Symmetric (fun a b : String × SFEntry => a.2.crwId ≠ b.2.crwId) :=
            fun a b hab hh => hab hh.symm
          exact (List.Pairwise.forall hsym h2) hpmem hmem hpne
        refine ⟨?_, hn⟩
        intro hmem'
        rcases List.mem_cons.mp hmem' with hc' | hc''
        · exact hidne hc'
        · exact hc hc''
      · exact h2.sublist (List.filter_sublist _)
      · intro i hi
        rcases List.mem_cons.mp hi with hi' | hi''
        · rw [hi']
          exact (h1 (key, e) hmem).2
        · exact h3 i hi''
    cases hce : env.closeErr with
    | some ce =>
      rw [cacheDone_closeErr env st key t e he ce hce]
      exact hinv1
    | none =>
      cases t with
      | some er =>
        cases hre : env.removeErr with
        | some re =>
          have : cacheDone env st key (some er) = (some re, doneState1 st key e) := by
            simp [cacheDone, he, hce, hre, doneState1]
          rw [this]
          exact hinv1
        | none =>
          rw [cacheDone_error env st key er e he hce hre]
          obtain ⟨g1, g2, g3⟩ := hinv1
          exact ⟨g1, g2, g3⟩
      | none =>
        cases hme : env.mkdirErr with
        | some me =>
          have : cacheDone env st key none = (some me, doneState1 st key e) := by
            simp [cacheDone, he, hce, hme, doneState1]
          rw [this]
          exact hinv1
        | none =>
          cases hre : env.renameErr with
          | some re =>
            have : cacheDone env st key none = (some re, doneState1 st key e) := by
              simp [cacheDone, he, hce, hme, hre, doneState1]
            rw [this]
            exact hinv1
          | none =>
            rw [cacheDone_success env st key e he hce hme hre]
            obtain ⟨g1, g2, g3⟩ := hinv1
            exact ⟨g1, g2, g3⟩

theorem reachable_cacheInv (st : CacheState) (h : Reachable st) : CacheInv st := by
  induction h with
  | init directory files => exact cacheInv_init directory files
  | get ce key hst ih => exact cacheInv_get ce key _ ih
  | done env key t hst ih => exact cacheInv_done env key t _ ih

theorem crwReadAt_eq (L : Nat) (c r : Bool) (bufLen off : Nat) :
    crwReadAt L c r bufLen off =
      if r then ReadOut.ret 0 true
      else if bufLen ≤ L - off then ReadOut.ret bufLen false
      else if c then ReadOut.ret (L - off) true
      else ReadOut.waits (L - off) := by
  rw [crwReadAt, readAtLoop_eq]
  simp

/-! ## Claim theorems -/

/-- Claim C5: a CRW reader's Read and ReadAt deliver end-of-stream only when
the reader itself has been closed (then immediately, with zero bytes) or the
CRW is closed and the file has no byte at the position the read stopped at;
while the CRW is open, an exhausting read parks on the wake condition instead
of returning end-of-stream, having drained everything available to the
caller's buffer first; Read is ReadAt at the reader's offset, which advances
by the count returned. -/
theorem crw_reader_eof_characterization (L : Nat) (c r : Bool) (bufLen off offset : Nat) :
    (r = true → crwReadAt L c r bufLen off = ReadOut.ret 0 true) ∧
    (∀ n, crwReadAt L c r bufLen off = ReadOut.ret n true →
      r = true ∨ (c = true ∧ L ≤ off + n)) ∧
    (r = false → c = false → ∀ n, crwReadAt L c r bufLen off ≠ ReadOut.ret n true) ∧
    (∀ n, crwReadAt L c r bufLen off = ReadOut.waits n →
      r = false ∧ c = false ∧ n = L - off ∧ L - off < bufLen) ∧
    (∀ n e off', crwRead L c r offset bufLen = (ReadOut.ret n e, off') →
      off' = offset + n ∧ crwReadAt L c r bufLen offset = ReadOut.ret n e) := by
  refine ⟨?_, ?_, ?_, ?_, ?_⟩
  · intro hr
    rw [crwReadAt_eq, if_pos hr]
  · intro n hn
    rw [crwReadAt_eq] at hn
    by_cases hr : r
    · exact Or.inl hr
    · rw [if_neg hr] at hn
      by_cases hle : bufLen ≤ L - off
      · rw [if_pos hle] at hn
        simp at hn
      · rw [if_neg hle] at hn
        by_cases hc : c
        · rw [if_pos hc] at hn
          simp only [ReadOut.ret.injEq] at hn
          exact Or.inr ⟨hc, by omega⟩
        · rw [if_neg hc] at hn
          simp at hn
  · intro hr hc n
    rw [crwReadAt_eq, if_neg (by simp [hr])]
    by_cases hle : bufLen ≤ L - off
    · simp [hle]
    · simp [hle, hc]
  · intro n hn
    rw [crwReadAt_eq] at hn
    by_cases hr : r
    · rw [if_pos hr] at hn
      simp at hn
    · rw [if_neg hr] at hn
      by_cases hle : bufLen ≤ L - off
      · rw [if_pos hle] at hn
        simp at hn
      · rw [if_neg hle] at hn
        by_cases hc : c
        · rw [if_pos hc] at hn
          simp at hn
        · rw [if_neg hc] at hn
          simp only [ReadOut.waits.injEq] at hn
          exact ⟨by simpa using hr, by simpa using hc, hn.symm, by omega⟩
  · intro n e off' h
    rw [crwRead] at h
    cases hra : crwReadAt L c r bufLen offset with
    | ret m e' =>
      rw [hra] at h
      simp only [Prod.mk.injEq, ReadOut.ret.injEq] at h
      obtain ⟨⟨hm, he⟩, hoff⟩ := h
      subst hm
      subst he
      exact ⟨hoff.symm, rfl⟩
    | waits m =>
      rw [hra] at h
      simp at h

/-- Claim C5 witness: a closed reader returns end-of-stream with zero bytes at
once. -/
theorem crw_reader_eof_witness : crwReadAt 5 false true 3 0 = ReadOut.ret 0 true :=
  (crw_reader_eof_characterization 5 false true 3 0 0).1 rfl

/-- Claim C3: cache.Get returns exactly one of Disk (committed file opens),
Inflight (registry hit: a new reader on that entry's CRW), or Fresh (tmp file
created, CRW wrapped, entry inserted, reader and writer returned); a tmp
creation failure surfaces the error and mutates nothing. -/
theorem cacheGet_trichotomy (ce : Option Err) (st : CacheState) (key : String) :
    (∀ content, fsLookup st.files (objectsPath st key) = some content →
      cacheGet ce st key =
        ((Rdr.file (objectsPath st key) content, none, Source.disk, none), st)) ∧
    (fsLookup st.files (objectsPath st key) = none →
      ∀ e, lookupSF st.singleflight key = some e →
        cacheGet ce st key = ((crwReader st e.crwId, none, Source.inflight, none), st)) ∧
    (fsLookup st.files (objectsPath st key) = none →
      lookupSF st.singleflight key = none →
      ∀ er, ce = some er →
        cacheGet ce st key = ((Rdr.nil, none, Source.fresh, some er), st)) ∧
    (fsLookup st.files (objectsPath st key) = none →
      lookupSF st.singleflight key = none → ce = none →
      cacheGet ce st key =
        ((crwReader (freshState st key) st.nextId, some st.nextId, Source.fresh, none),
          freshState st key) ∧
      fsLookup (freshState st key).files (tmpPath st key) = some [] ∧
      lookupSF (freshState st key).singleflight key =
        some ⟨st.nextId, tmpPath st key, objectsPath st key⟩) := by
  refine ⟨?_, ?_, ?_, ?_⟩
  · intro content h
    exact cacheGet_disk ce st key content h
  · intro hd e he
    exact cacheGet_inflight ce st key e hd he
  · intro hd he er hce
    rw [hce]
    exact cacheGet_createFail er st key hd he
  · intro hd he hce
    rw [hce]
    refine ⟨cacheGet_fresh st key hd he, ?_, ?_⟩
    · simp only [freshState]
      exact fsLookup_fsCreate_self st.files (tmpPath st key)
    · simp only [freshState]
      exact lookupSF_append_mem st.singleflight key _ he

/-- Claim C3 witness: a fresh Get on an empty cache creates the tmp file,
registers the entry and hands back reader plus writer. -/
theorem cacheGet_trichotomy_witness :
    cacheGet none (initCache "d" []) "foobar" =
      ((crwReader (freshState (initCache "d" []) "foobar") 0, some 0, Source.fresh, none),
        freshState (initCache "d" []) "foobar") ∧
    fsLookup (freshState (initCache "d" []) "foobar").files
      (tmpPath (initCache "d" []) "foobar") = some [] ∧
    lookupSF (freshState (initCache "d" []) "foobar").singleflight "foobar" =
      some ⟨0, tmpPath (initCache "d" []) "foobar", objectsPath (initCache "d" []) "foobar"⟩ :=
  (cacheGet_trichotomy none (initCache "d" []) "foobar").2.2.2 rfl rfl rfl

/-- Claim C4: for a key with an inflight entry, Done(k, none) removes the
entry, creates the parent directory under objects/ and renames tmp/<k> to
objects/<namer(k)>, after which the committed file exists and tmp/<k> does
not; Done(k, some e) removes the entry and unlinks tmp/<k>, after which
neither file exists; Done on an unknown key returns the distinguished
key-not-found error; the default namer nests <k[0:2]>/<k[2:4]>/<k> for keys of
length at least four and is the identity on shorter keys. -/
theorem cacheDone_lifecycle (st : CacheState) (key : String) :
    (∀ e, lookupSF st.singleflight key = some e →
      e.tmpName = tmpPath st key → e.dest = objectsPath st key →
      e.tmpName ≠ e.dest →
      (∀ c, fsLookup st.files e.tmpName = some c →
        (cacheDone okEnv st key none).1 = none ∧
        fsLookup (cacheDone okEnv st key none).2.files (objectsPath st key) = some c ∧
        fsLookup (cacheDone okEnv st key none).2.files (tmpPath st key) = none ∧
        parentDir (objectsPath st key) ∈ (cacheDone okEnv st key none).2.dirs ∧
        lookupSF (cacheDone okEnv st key none).2.singleflight key = none) ∧
      (∀ er, fsLookup st.files e.dest = none →
        (cacheDone okEnv st key (some er)).1 = none ∧
        fsLookup (cacheDone okEnv st key (some er)).2.files (tmpPath st key) = none ∧
        fsLookup (cacheDone okEnv st key (some er)).2.files (objectsPath st key) = none ∧
        lookupSF (cacheDone okEnv st key (some er)).2.singleflight key = none)) ∧
    (lookupSF st.singleflight key = none →
      ∀ env t, cacheDone env st key t = (some ErrKeyNotFound, st)) ∧
    (∀ k : String, (4 ≤ k.length →
        DefaultFilenamer k =
          String.mk (k.data.take 2) ++ "/" ++ String.mk ((k.data.drop 2).take 2) ++ "/" ++ k) ∧
      (k.length < 4 → DefaultFilenamer k = k)) := by
  refine ⟨?_, ?_, ?_⟩
  · intro e he htmp hdest hne
    constructor
    · intro c hc
      rw [cacheDone_success okEnv st key e he rfl rfl rfl]
      simp only [htmp, hdest] at hc hne ⊢
      refine ⟨?_, ?_, ?_, ?_, ?_⟩
      · trivial
      · exact fsLookup_fsRename_dest st.files _ _ c hc
      · exact fsLookup_fsRename_src st.files _ _ c hc hne
      · exact List.mem_cons_self _ _
      · exact lookupSF_removeSF_self st.singleflight key
    · intro er hdabs
      rw [cacheDone_error okEnv st key er e he rfl rfl]
      simp only [htmp, hdest] at hdabs hne ⊢
      refine ⟨?_, ?_, ?_, ?_⟩
      · trivial
      · exact fsLookup_fsErase_self st.files _
      · show fsLookup (fsErase st.files (tmpPath st key)) (objectsPath st key) = none
        rw [fsLookup_fsErase_other st.files _ _ (fun hh => hne hh.symm)]
        exact hdabs
      · exact lookupSF_removeSF_self st.singleflight key
  · intro he env t
    exact cacheDone_noEntry env st key t he
  · intro k
    constructor
    · intro hk
      rw [DefaultFilenamer, if_neg (by omega)]
    · intro hk
      rw [DefaultFilenamer, if_pos hk]

/-- Claim C4 witness: committing the key "foobar" from a freshly created
inflight entry promotes d/tmp/foobar to d/objects/fo/ob/foobar. -/
theorem cacheDone_lifecycle_witness :
    (cacheDone okEnv (freshState (initCache "d" []) "foobar") "foobar" none).1 = none ∧
    fsLookup (cacheDone okEnv (freshState (initCache "d" []) "foobar") "foobar" none).2.files
      (objectsPath (freshState (initCache "d" []) "foobar") "foobar") = some [] ∧
    fsLookup (cacheDone okEnv (freshState (initCache "d" []) "foobar") "foobar" none).2.files
      (tmpPath (freshState (initCache "d" []) "foobar") "foobar") = none ∧
    parentDir (objectsPath (freshState (initCache "d" []) "foobar") "foobar") ∈
      (cacheDone okEnv (freshState (initCache "d" []) "foobar") "foobar" none).2.dirs ∧
    lookupSF
      (cacheDone okEnv (freshState (initCache "d" []) "foobar") "foobar" none).2.singleflight
      "foobar" = none :=
  ((cacheDone_lifecycle (freshState (initCache "d" []) "foobar") "foobar").1
    ⟨0, tmpPath (initCache "d" []) "foobar", objectsPath (initCache "d" []) "foobar"⟩
    rfl rfl rfl (by decide)).1 [] rfl

/-- Claim C10: when Done finds the entry but closing the CRW fails, the close
error is returned with the entry already removed while the tmp file is neither
renamed nor unlinked, and any later Done on the key reports key-not-found. -/
theorem cacheDone_closeErr_orphans_tmp (st : CacheState) (key : String) (e : SFEntry)
    (env : DoneEnv) (ce : Err) (t : Option Err)
    (he : lookupSF st.singleflight key = some e) (hce : env.closeErr = some ce) :
    cacheDone env st key t = (some ce, doneState1 st key e) ∧
    (doneState1 st key e).files = st.files ∧
    (doneState1 st key e).singleflight = removeSF st.singleflight key ∧
    lookupSF (doneState1 st key e).singleflight key = none ∧
    (∀ env' t', cacheDone env' (doneState1 st key e) key t' =
      (some ErrKeyNotFound, doneState1 st key e)) := by
  refine ⟨cacheDone_closeErr env st key t e he ce hce, rfl, rfl, ?_, ?_⟩
  · exact lookupSF_removeSF_self st.singleflight key
  · intro env' t'
    exact cacheDone_noEntry env' _ key t' (lookupSF_removeSF_self st.singleflight key)

/-- Claim C10 witness: a failing CRW close on the inflight key "k" leaves the
tmp file in place, the entry gone, and a repeat Done reporting key-not-found. -/
theorem cacheDone_closeErr_orphans_tmp_witness :
    cacheDone ⟨some "close failed", none, none, none⟩ (freshState (initCache "d" []) "k") "k"
        none =
      (some "close failed",
        doneState1 (freshState (initCache "d" []) "k") "k"
          ⟨0, tmpPath (initCache "d" []) "k", objectsPath (initCache "d" []) "k"⟩) ∧
    (doneState1 (freshState (initCache "d" []) "k") "k"
      ⟨0, tmpPath (initCache "d" []) "k", objectsPath (initCache "d" []) "k"⟩).files =
      (freshState (initCache "d" []) "k").files ∧
    (doneState1 (freshState (initCache "d" []) "k") "k"
      ⟨0, tmpPath (initCache "d" []) "k", objectsPath (initCache "d" []) "k"⟩).singleflight =
      removeSF (freshState (initCache "d" []) "k").singleflight "k" ∧
    lookupSF
      (doneState1 (freshState (initCache "d" []) "k") "k"
        ⟨0, tmpPath (initCache "d" []) "k", objectsPath (initCache "d" []) "k"⟩).singleflight
      "k" = none ∧
    (∀ env' t',
      cacheDone env'
          (doneState1 (freshState (initCache "d" []) "k") "k"
            ⟨0, tmpPath (initCache "d" []) "k", objectsPath (initCache "d" []) "k"⟩) "k" t' =
        (some ErrKeyNotFound,
          doneState1 (freshState (initCache "d" []) "k") "k"
            ⟨0, tmpPath (initCache "d" []) "k", objectsPath (initCache "d" []) "k"⟩)) :=
  cacheDone_closeErr_orphans_tmp (freshState (initCache "d" []) "k") "k"
    ⟨0, tmpPath (initCache "d" []) "k", objectsPath (initCache "d" []) "k"⟩
    ⟨some "close failed", none, none, none⟩ "close failed" none rfl rfl

/-- Claim C9: in every reachable cache state every inflight CRW is un-closed,
so Get on an inflight key returns a non-nil reader, and the CRW Reader method
returns the nil sentinel exactly when the CRW is closed. -/
theorem inflight_crw_unclosed (st : CacheState) (hr : Reachable st) :
    (∀ p ∈ st.singleflight, crwIsClosed st p.2.crwId = false) ∧
    (∀ key e ce, lookupSF st.singleflight key = some e →
      fsLookup st.files (objectsPath st key) = none →
      (cacheGet ce st key).1.1 = Rdr.crw e.crwId ∧ Rdr.crw e.crwId ≠ Rdr.nil) ∧
    (∀ id, crwReader st id = Rdr.nil ↔ crwIsClosed st id = true) := by
  obtain ⟨h1, _h2, _h3⟩ := reachable_cacheInv st hr
  have hunclosed : ∀ p ∈ st.singleflight, crwIsClosed st p.2.crwId = false := by
    intro p hp
    have := (h1 p hp).1
    simpa [crwIsClosed] using this
  refine ⟨hunclosed, ?_, ?_⟩
  · intro key e ce he hd
    have hmem : (key, e) ∈ st.singleflight := lookupSF_mem _ _ _ he
    have hcl : crwIsClosed st e.crwId = false := hunclosed (key, e) hmem
    rw [cacheGet_inflight ce st key e hd he]
    constructor
    · simp [crwReader, hcl]
    · simp
  · intro id
    rw [crwReader]
    by_cases hcl : crwIsClosed st id <;> simp [hcl]

/-- Claim C9 witness: in the reachable state with "k" inflight, Get returns
the non-nil CRW reader. -/
theorem inflight_crw_unclosed_witness :
    (cacheGet none (cacheGet none (initCache "d" []) "k").2 "k").1.1 = Rdr.crw 0 ∧
    Rdr.crw 0 ≠ Rdr.nil :=
  (inflight_crw_unclosed (cacheGet none (initCache "d" []) "k").2
      (Reachable.get none "k" (Reachable.init "d" []))).2.1 "k"
    ⟨0, tmpPath (initCache "d" []) "k", objectsPath (initCache "d" []) "k"⟩ none rfl rfl

/-! ### Helper lemmas for the signed handoff -/

theorem parseHeaders_eq (mac : Mac) (key : Bytes) (r : HttpRequest) :
    parseHeaders mac key r =
      match hexDecode (getHeader r.headers SignatureHeader) with
      | none => .error .badHex
      | some signature =>
        if mac key (macMessage (getHeader r.headers UpstreamHeaderList)
            (getHeader r.headers OriginalHrefHeader) (getHeader r.headers SizeHeader)) =
            signature then
          match atoi (getHeader r.headers SizeHeader) with
          | none => .error .badSize
          | some size =>
            .ok (getHeader r.headers OriginalHrefHeader, size,
              ((splitSemi (getHeader r.headers UpstreamHeaderList)).filter
                (fun k => k ≠ "")).map (fun k => (k, getHeader r.headers k)))
        else .error .badSignature := rfl

theorem mk_data (s : String) : String.mk s.data = s := rfl

theorem splitSemi_joinSemi (l : List String) (hne : l ≠ [])
    (hs : ∀ x ∈ l, ';' ∉ x.data) : splitSemi (joinSemi l) = l := by
  rw [splitSemi, joinSemi]
  have hdata : (String.mk (joinCharList ';' (l.map String.data))).data =
      joinCharList ';' (l.map String.data) := rfl
  rw [hdata, splitCharList_joinCharList ';' (l.map String.data) (by simpa using hne)
    (by
      intro x hx
      obtain ⟨s, hs', rfl⟩ := List.mem_map.mp hx
      exact hs s hs')]
  rw [List.map_map]
  have hid : (String.mk ∘ String.data) = id := funext (fun s => rfl)
  rw [hid, List.map_id]

theorem getHeader_mem_nodup (h : Headers) (hnd : (h.map Prod.fst).Nodup)
    (p : String × String) (hp : p ∈ h) : getHeader h p.1 = p.2 := by
  induction h with
  | nil => cases hp
  | cons q t ih =>
    rcases List.mem_cons.mp hp with rfl | hpt
    · simp [getHeader, lookupH]
    · have hmem : p.1 ∈ t.map Prod.fst := List.mem_map.mpr ⟨p, hpt, rfl⟩
      have hnd' : q.1 ∉ t.map Prod.fst ∧ (t.map Prod.fst).Nodup := by
        rw [List.map_cons, List.nodup_cons] at hnd
        exact hnd
      have hq : q.1 ≠ p.1 := fun he => hnd'.1 (he ▸ hmem)
      simp only [getHeader, lookupH, if_neg hq]
      exact ih hnd'.2 hpt

theorem map_reconstruct (A : Headers) (hdr : Headers)
    (h : ∀ p ∈ hdr, getHeader A p.1 = p.2) :
    (hdr.map Prod.fst).map (fun k => (k, getHeader A k)) = hdr := by
  induction hdr with
  | nil => rfl
  | cons p t ih =>
    simp only [List.map_cons]
    rw [h p (List.mem_cons_self p t), ih (fun q hq => h q (List.mem_cons_of_mem p hq))]

/-- Claim C1 (amended): parseHeaders accepts exactly the requests whose
signature header hex-decodes to the MAC over the byte concatenation — in
order, with no separator — of the three signed header values, provided the
size header parses; on any parse failure the content handler answers with the
client error and the cache state is untouched. Because the MAC covers only
the unseparated concatenation, acceptance characterizes the concatenation,
not the Rewrite-produced triple itself (see the counterexample). -/
theorem parseHeaders_accepts_iff (mac : Mac) (key : Bytes) (r : HttpRequest) :
    ((∃ v, parseHeaders mac key r = .ok v) ↔
      (hexDecode (getHeader r.headers SignatureHeader) =
          some (mac key (strBytes (getHeader r.headers UpstreamHeaderList) ++
            strBytes (getHeader r.headers OriginalHrefHeader) ++
            strBytes (getHeader r.headers SizeHeader))) ∧
        ∃ n, atoi (getHeader r.headers SizeHeader) = some n)) ∧
    (∀ e, parseHeaders mac key r = .error e →
      ∀ ce st, serve mac key ce st r = (ServeOut.badRequest, st)) := by
  constructor
  · constructor
    · rintro ⟨v, hv⟩
      rw [parseHeaders_eq] at hv
      cases hhex : hexDecode (getHeader r.headers SignatureHeader) with
      | none =>
        simp only [hhex] at hv
        exact absurd hv (by simp)
      | some signature =>
        simp only [hhex] at hv
        by_cases htag : mac key (macMessage (getHeader r.headers UpstreamHeaderList)
            (getHeader r.headers OriginalHrefHeader) (getHeader r.headers SizeHeader)) =
            signature
        · rw [if_pos htag] at hv
          cases hsz : atoi (getHeader r.headers SizeHeader) with
          | none =>
            simp only [hsz] at hv
            exact absurd hv (by simp)
          | some size =>
            exact ⟨congrArg some htag.symm, size, rfl⟩
        · rw [if_neg htag] at hv
          simp at hv
    · rintro ⟨hhex, n, hn⟩
      rw [parseHeaders_eq]
      simp only [hhex, macMessage, if_pos rfl, hn]
      exact ⟨_, rfl⟩
  · intro e he ce st
    simp [serve, he]

/-- Claim C1 counterexample: Rewrite under the empty key produced precisely
the signed triple ("", "U", "123"); the distinct triple ("U", "1", "23")
concatenates to the same bytes, so a request carrying it together with the
produced signature passes parseHeaders — acceptance does not imply the
presented triple was Rewrite-produced. -/
theorem parseHeaders_ambiguity_counterexample :
    signedTriple (rewriteAction exId [] "http" "h" "o" 123 ⟨"U", []⟩).header =
      ("", "U", "123") ∧
    getHeader forgedHeaders SignatureHeader =
      getHeader (rewriteAction exId [] "http" "h" "o" 123 ⟨"U", []⟩).header SignatureHeader ∧
    signedTriple forgedHeaders = ("U", "1", "23") ∧
    (("U", "1", "23") : String × String × String) ≠ ("", "U", "123") ∧
    parseHeaders exId [] ⟨"/_lfs_cache/o", forgedHeaders⟩ = .ok ("1", 23, [("U", "")]) :=
  ⟨by decide, by decide, by decide, by decide, rfl⟩

/-- Claim C1 witness: a request whose signature header is not valid hex is
rejected, the handler answers 400, and the cache state is exactly the one it
started with. -/
theorem parseHeaders_accepts_iff_witness :
    serve exId [] none (initCache "d" [])
        ⟨"/_lfs_cache/o", [(SignatureHeader, "zz")]⟩ =
      (ServeOut.badRequest, initCache "d" []) :=
  (parseHeaders_accepts_iff exId [] ⟨"/_lfs_cache/o", [(SignatureHeader, "zz")]⟩).2
    ParseErr.badHex rfl none (initCache "d" [])

/-- Claim C8: parseHeaders reads nothing but the request headers and the
signing key — two content requests with the same headers and different paths
parse identically — while the object key the handler feeds to the cache
lookup (and onward to the fetch checksum) is exactly the final segment of the
request path, which no signed header covers. -/
theorem parseHeaders_path_independent (mac : Mac) (key : Bytes) (h : Headers)
    (p1 p2 : String) :
    parseHeaders mac key ⟨p1, h⟩ = parseHeaders mac key ⟨p2, h⟩ ∧
    (∀ r : HttpRequest, ∀ v, parseHeaders mac key r = .ok v →
      ∀ ce st, (serve mac key ce st r).1.oid? = some (pathBase r.path)) := by
  constructor
  · rfl
  · intro r v hv ce st
    simp only [serve, hv]
    cases hg : (cacheGet ce st (pathBase r.path)).1.2.2.2 with
    | some e => simp [hg, ServeOut.oid?]
    | none => simp [hg, ServeOut.oid?]

/-- Claim C8 witness: the accepted forged request is served under the object
id taken from its path's final segment. -/
theorem parseHeaders_path_independent_witness :
    (serve exId [] none (initCache "d" [])
        ⟨"/_lfs_cache/o", forgedHeaders⟩).1.oid? = some (pathBase "/_lfs_cache/o") :=
  (parseHeaders_path_independent exId [] forgedHeaders "x" "y").2
    ⟨"/_lfs_cache/o", forgedHeaders⟩ ("1", 23, [("U", "")]) rfl none (initCache "d" [])

/-- Claim C6: one fetch execution performs exactly one cache.Done call, with
the terminal error as argument; the terminal error is absent exactly when the
upstream request could be built and issued, the status was 200, the body copy
succeeded, and the streamed bytes hash to the object key; and with a non-nil
terminal error Done unlinks the partially written tmp file. -/
theorem fetch_done_exactly_once (hash : HashHex) (env : FetchEnv) (oid : String) :
    (fetch hash env oid).2 = [(oid, (fetch hash env oid).1)] ∧
    ((fetch hash env oid).1 = none ↔
      env.buildErr = none ∧ env.doErr = none ∧ env.status = 200 ∧ env.copyErr = none ∧
        oid = hash env.body) ∧
    (∀ er st key e, (fetch hash env oid).1 = some er →
      lookupSF st.singleflight key = some e →
      fsLookup (cacheDone okEnv st key (some er)).2.files e.tmpName = none) := by
  refine ⟨rfl, ?_, ?_⟩
  · rcases env with ⟨b, d, s, body, cp⟩
    cases b with
    | some e => simp [fetch, fetchTerminal]
    | none =>
      cases d with
      | some e => simp [fetch, fetchTerminal]
      | none =>
        by_cases hs : s = 200
        · subst hs
          cases cp with
          | some e => simp [fetch, fetchTerminal]
          | none =>
            by_cases hck : oid = hash body
            · simp [fetch, fetchTerminal, hck]
            · simp [fetch, fetchTerminal, hck]
        · simp [fetch, fetchTerminal, hs]
  · intro er st key e _hf he
    rw [cacheDone_error okEnv st key er e he rfl rfl]
    exact fsLookup_fsErase_self _ _

/-- Claim C6 witness: a 404 upstream status yields a terminal error, and Done
with it removes the tmp file of the inflight key. -/
theorem fetch_done_exactly_once_witness :
    fsLookup
      (cacheDone okEnv (freshState (initCache "d" []) "k") "k"
        (some "upstream status")).2.files
      (tmpPath (initCache "d" []) "k") = none :=
  (fetch_done_exactly_once (fun _ => "") ⟨none, none, 404, [], none⟩ "k").2.2
    "upstream status" (freshState (initCache "d" []) "k") "k"
    ⟨0, tmpPath (initCache "d" []) "k", objectsPath (initCache "d" []) "k"⟩ rfl rfl

/-- Claim C7 (amended): the command line of main.go offers no signing-key
file option, and newServer always fills the 64-byte HMAC key from the process
random source, identically for every configuration — the key is never loaded
from a file, so key sharing across instances is not configurable here. -/
theorem hmacKey_random_config_independent (randByte : Nat → Nat)
    (cfg1 cfg2 : ServerConfig) :
    newServerHmacKey randByte cfg1 = newServerHmacKey randByte cfg2 ∧
    (newServerHmacKey randByte cfg1).length = 64 ∧
    "hmac-key-file" ∉ mainFlagNames := by
  refine ⟨rfl, by simp [newServerHmacKey], by decide⟩

/-- Claim C7 counterexample: with the random source emitting ones, the key
newServer installs for a concrete configuration is the 64 random bytes and
differs from any 64-byte key-file contents (here zeros); no main.go flag
names a signing-key file. -/
theorem hmacKey_not_from_file_counterexample :
    newServerHmacKey (fun _ => 1) ⟨"http://upstream", "d", true⟩ = List.replicate 64 1 ∧
    List.replicate (64 : Nat) (1 : Nat) ≠ List.replicate 64 0 ∧
    "hmac-key-file" ∉ mainFlagNames :=
  ⟨by decide, by decide, by decide⟩

theorem reconstruct_names (A : Headers) (hdr : Headers)
    (hnn : ∀ p ∈ hdr, p.1 ≠ "") (hns : ∀ p ∈ hdr, ';' ∉ p.1.data)
    (hval : ∀ p ∈ hdr, getHeader A p.1 = p.2) :
    ((splitSemi (joinSemi (hdr.map Prod.fst))).filter (fun k => k ≠ "")).map
      (fun k => (k, getHeader A k)) = hdr := by
  cases hdr with
  | nil => rfl
  | cons p t =>
    rw [splitSemi_joinSemi _ (by simp)
      (by
        intro x hx
        obtain ⟨q, hq, rfl⟩ := List.mem_map.mp hx
        exact hns q hq)]
    rw [List.filter_eq_self.mpr
      (by
        intro a ha
        obtain ⟨q, hq, rfl⟩ := List.mem_map.mp ha
        simpa using hnn q hq)]
    exact map_reconstruct A (p :: t) hval

/-- Claim C2: the signed-handoff round trip. Presenting the headers of a
batch-rewritten download action (href U, header map H, size S) to parseHeaders
under the same signing key succeeds: the signature verifies, the returned url
is U, the returned size is S, and the reconstructed header set is H — each
listed name mapped to its value from the incoming request. Hypotheses: the
MAC emits genuine bytes, and H's names are nonempty, semicolon-free, pairwise
distinct and none of the four reserved cache header names — the
well-formedness every real upstream header set has. -/
theorem rewrite_parse_roundtrip (mac : Mac) (key : Bytes)
    (hmac : ∀ k m, ∀ b ∈ mac k m, b < 256)
    (scheme host oid path href : String) (size : Int) (hdr : Headers)
    (hnn : ∀ p ∈ hdr, p.1 ≠ "")
    (hns : ∀ p ∈ hdr, ';' ∉ p.1.data)
    (hnr : ∀ p ∈ hdr, p.1 ≠ UpstreamHeaderList ∧ p.1 ≠ OriginalHrefHeader ∧
      p.1 ≠ SizeHeader ∧ p.1 ≠ SignatureHeader)
    (hnd : (hdr.map Prod.fst).Nodup) :
    parseHeaders mac key
      ⟨path, (rewriteAction mac key scheme host oid size ⟨href, hdr⟩).header⟩ =
      .ok (href, size, hdr) := by
  have hA : (rewriteAction mac key scheme host oid size ⟨href, hdr⟩).header =
      setHeader (setHeader (setHeader (setHeader hdr UpstreamHeaderList
          (joinSemi (hdr.map Prod.fst))) OriginalHrefHeader href) SizeHeader (itoa size))
        SignatureHeader
        (hexEncode (mac key (macMessage (joinSemi (hdr.map Prod.fst)) href (itoa size)))) :=
    rfl
  set A := (rewriteAction mac key scheme host oid size ⟨href, hdr⟩).header with hAdef
  have g_sig : getHeader A SignatureHeader =
      hexEncode (mac key (macMessage (joinSemi (hdr.map Prod.fst)) href (itoa size))) := by
    rw [hA]
    exact getHeader_setHeader_self _ _ _
  have g_size : getHeader A SizeHeader = itoa size := by
    rw [hA, getHeader_setHeader_other _ _ _ _ (by decide)]
    exact getHeader_setHeader_self _ _ _
  have g_href : getHeader A OriginalHrefHeader = href := by
    rw [hA, getHeader_setHeader_other _ _ _ _ (by decide),
      getHeader_setHeader_other _ _ _ _ (by decide)]
    exact getHeader_setHeader_self _ _ _
  have g_list : getHeader A UpstreamHeaderList = joinSemi (hdr.map Prod.fst) := by
    rw [hA, getHeader_setHeader_other _ _ _ _ (by decide),
      getHeader_setHeader_other _ _ _ _ (by decide),
      getHeader_setHeader_other _ _ _ _ (by decide)]
    exact getHeader_setHeader_self _ _ _
  have g_orig : ∀ p ∈ hdr, getHeader A p.1 = p.2 := by
    intro p hp
    obtain ⟨hr1, hr2, hr3, hr4⟩ := hnr p hp
    rw [hA, getHeader_setHeader_other _ _ _ _ hr4, getHeader_setHeader_other _ _ _ _ hr3,
      getHeader_setHeader_other _ _ _ _ hr2, getHeader_setHeader_other _ _ _ _ hr1]
    exact getHeader_mem_nodup hdr hnd p hp
  have hdec : hexDecode (getHeader A SignatureHeader) =
      some (mac key (macMessage (joinSemi (hdr.map Prod.fst)) href (itoa size))) := by
    rw [g_sig]
    exact hexDecode_hexEncode _ (hmac _ _)
  rw [parseHeaders_eq]
  show (match hexDecode (getHeader A SignatureHeader) with
    | none => Except.error ParseErr.badHex
    | some signature =>
      if mac key (macMessage (getHeader A UpstreamHeaderList)
          (getHeader A OriginalHrefHeader) (getHeader A SizeHeader)) = signature then
        match atoi (getHeader A SizeHeader) with
        | none => Except.error ParseErr.badSize
        | some size =>
          Except.ok (getHeader A OriginalHrefHeader, size,
            ((splitSemi (getHeader A UpstreamHeaderList)).filter
              (fun k => k ≠ "")).map (fun k => (k, getHeader A k)))
      else Except.error ParseErr.badSignature) = Except.ok (href, size, hdr)
  simp only [hdec, g_list, g_href, g_size, atoi_itoa, eq_self_iff_true, if_true]
  rw [reconstruct_names A hdr hnn hns g_orig]

/-- Claim C2 witness: a concrete rewrite of href "U", header map containing
the single pair A: a, and size 123 round-trips through parseHeaders. -/
theorem rewrite_parse_roundtrip_witness :
    parseHeaders (fun _ _ => [7, 255]) []
      ⟨"/_lfs_cache/o",
        (rewriteAction (fun _ _ => [7, 255]) [] "http" "h" "o" 123
          ⟨"U", [("A", "a")]⟩).header⟩ =
      .ok ("U", 123, [("A", "a")]) :=
  rewrite_parse_roundtrip (fun _ _ => [7, 255]) []
    (by
      intro k m b hb
      simp at hb
      rcases hb with rfl | rfl <;> decide)
    "http" "h" "o" "/_lfs_cache/o" "U" 123 [("A", "a")]
    (by decide) (by decide) (by decide) (by decide)

end Lfs

